import Mathlib

/-!
Shallow embedding of the ESMValTool diagnostic scripts

* `esmvaltool/diag_scripts/kcs/tas_annual_change.py`
* `esmvaltool/diag_scripts/mlr/plot.py`
* `esmvaltool/preprocessor/_derive/uajet.py`

Floating-point values are modelled as rationals (`ℚ`), time coordinates as
lists of integer years, iris cubes as records of a time coordinate, a data
array and a unit label, and the pandas run table as a list of row records.
Cube objects live in an explicit store (`Store`, a list of cubes) and rows
hold indices into that store, so that aliasing and in-place mutation of
cube data can be reasoned about faithfully.
-/

namespace ESMValTool

namespace KCS

/-- Embedding of an iris cube as used by `tas_annual_change.py`: a time
coordinate (one integer year per time point), the data array, and the unit
label.  The per-point data value at position `k` belongs to year
`times.get k`. -/
structure Cube where
  times : List ℤ
  data : List ℚ
  units : String
deriving DecidableEq

/-- Unweighted arithmetic mean of a list of rationals, `sum / len`
(`np.mean`; for the empty list `ℚ` division yields `0` where numpy would
produce NaN — the claims below only use it on nonempty data or under an
explicit nonemptiness hypothesis). -/
def listMean (xs : List ℚ) : ℚ := xs.sum / (xs.length : ℚ)

/-- Modelled from the spec: `kcsutils.make_year_constraint_all_calendars`
(the `kcsutils` package is not part of this repository) restricts a cube to
the configured reference period, a closed year interval; iris constraint
extraction returns `None` when no time point survives.  `extractPeriod`
keeps exactly the points whose year lies in `[w.1, w.2]`. -/
def extractPeriod (w : ℤ × ℤ) (c : Cube) : Option Cube :=
  let pts := (c.times.zip c.data).filter (fun p => w.1 ≤ p.1 ∧ p.1 ≤ w.2)
  if pts.isEmpty then none
  else some { times := pts.map Prod.fst, data := pts.map Prod.snd, units := c.units }

/-- Embedding of `ModelReferencePointCalculation.calc_mean`: for every cube,
extract the reference window (skip the cube with a warning when the window
does not intersect it), count the surviving time points, skip the cube when
that count is below `mindata`, and otherwise collapse the restricted cube to
its time mean, collecting `(mean, ndata)` pairs. -/
def calc_mean (w : ℤ × ℤ) (mindata : ℕ) : List Cube → List (ℚ × ℕ)
  | [] => []
  | c :: rest =>
    match extractPeriod w c with
    | none => calc_mean w mindata rest
    | some ex =>
      if ex.times.length < mindata then calc_mean w mindata rest
      else (listMean ex.data, ex.times.length) :: calc_mean w mindata rest

/-- Minimum numbers of surviving samples required of a historical-branch and
a future-branch cube (the module constant `MINDATA`). -/
structure Mindata where
  historical : ℕ
  future : ℕ
deriving DecidableEq

/-- Embedding of the module constant `MINDATA = {'historical': 20, 'future': 4}`. -/
def MINDATA : Mindata := ⟨20, 4⟩

/-- Embedding of the `mindata` selection in
`ModelReferencePointCalculation.__init__`: yearly data keep `MINDATA`,
seasonal (non-yearly) data scale it by 3 (three months a year), and monthly
(non-yearly, no season) data scale it by 12. -/
def mkMindata (yearly : Bool) (season : Option String) : Mindata :=
  if yearly then MINDATA
  else if season.isSome then ⟨3 * MINDATA.historical, 3 * MINDATA.future⟩
  else ⟨12 * MINDATA.historical, 12 * MINDATA.future⟩

/-- Embedding of `ModelReferencePointCalculation.calc_refvalue`: compute the
per-branch `(mean, ndata)` lists; if either branch is empty, warn and return
`None`; otherwise average the per-cube counts and the per-cube means within
each branch (unweighted, dividing by the number of cubes in the branch) and
combine the two branch means weighted by the averaged branch counts.
Argument order follows the source: the future cubes come first, the matched
historical cubes second. -/
def calc_refvalue (w : ℤ × ℤ) (mdHist mdFut : ℕ) (cubes histcubes : List Cube) :
    Option ℚ :=
  let avsHist := calc_mean w mdHist histcubes
  let avsFut := calc_mean w mdFut cubes
  if avsHist.isEmpty || avsFut.isEmpty then none
  else
    let nHist : ℚ := ((avsHist.map (fun p => (p.2 : ℚ))).sum) / (avsHist.length : ℚ)
    let mHist : ℚ := ((avsHist.map Prod.fst).sum) / (avsHist.length : ℚ)
    let nFut : ℚ := ((avsFut.map (fun p => (p.2 : ℚ))).sum) / (avsFut.length : ℚ)
    let mFut : ℚ := ((avsFut.map Prod.fst).sum) / (avsFut.length : ℚ)
    some ((mHist * nHist + mFut * nFut) / (nHist + nFut))

/-- Embedding of one row of the pandas run table: model name, experiment,
the cube (as an index into the cube store), the label of the matched
historical row (`-1` when unmatched), the attached reference value (`none`
models a missing value / NaN) and the matched future experiment recorded on
duplicated historical rows. -/
structure Row where
  model : String
  experiment : String
  cube : ℕ
  index_match_run : ℤ
  reference_value : Option ℚ
  matched_exp : String
deriving DecidableEq

/-- Store of cube objects; rows refer to cubes by position, so two rows
holding the same index alias the same cube. -/
abbrev Store := List Cube

/-- Placeholder cube used as the default of total lookups. -/
def emptyCube : Cube := ⟨[], [], ""⟩

/-- Placeholder row used as the default of total lookups. -/
def defaultRow : Row := ⟨"", "", 0, -1, none, ""⟩

/-- Cube of a row, resolved through the store. -/
def rowCube (st : Store) (r : Row) : Cube := st.getD r.cube emptyCube

/-- Embedding of the `future_data` construction in
`calculate_reference_values`: keep the rows with `index_match_run > -1` and
attach to each the cube of its matched historical row
(`match_historical_run`). -/
def futureData (st : Store) (rows : List Row) : List (Row × Cube) :=
  (rows.filter (fun r => -1 < r.index_match_run)).map
    (fun r => (r, rowCube st (rows.getD r.index_match_run.toNat defaultRow)))

/-- Embedding of `ModelReferencePointCalculation.__call__` for
`normby='model'`: restrict `future_data` to the given model and call
`calc_refvalue` on the future cubes and their matched historical cubes. -/
def modelRefvalue (w : ℤ × ℤ) (md : Mindata) (st : Store) (rows : List Row)
    (m : String) : Option ℚ :=
  let fd := (futureData st rows).filter (fun p => p.1.model = m)
  calc_refvalue w md.historical md.future (fd.map (fun p => rowCube st p.1))
    (fd.map Prod.snd)

/-- Embedding of Python `filter(None, xs)` over a list of float-or-`None`
values: falsy elements, i.e. `None` and `0.0`, are removed. -/
def pyFilterTruthy (xs : List (Option ℚ)) : List ℚ :=
  (xs.filterMap id).filter (fun v => ¬ v = 0)

/-- Embedding of `calculate_reference_values` for `normby='model'`: compute
the per-model reference values in the order of first appearance of the
models (`pandas.unique`), drop falsy values (`filter(None, ...)`), pair the
model names with the surviving values (`dict(zip(models, reference_values))`
— note the pairing is positional), and give every row the value looked up
for its model (`Series.map`; models absent from the dict yield NaN,
i.e. `none`). -/
def calculate_reference_values_model (w : ℤ × ℤ) (md : Mindata) (st : Store)
    (rows : List Row) : List Row :=
  let models := (rows.map (fun r => r.model)).eraseDups
  let refvals := pyFilterTruthy (models.map (modelRefvalue w md st rows))
  let refmap := models.zip refvals
  rows.map (fun r => { r with reference_value := refmap.lookup r.model })

/-- Embedding of `normalize_cube`: subtract the reference value in place;
in relative mode additionally divide by the reference, scale to percent and
relabel the unit to `%`. -/
def normalize_cube (relative : Bool) (c : Cube) (ref : ℚ) : Cube :=
  let c1 : Cube := { c with data := c.data.map (fun v => v - ref) }
  if relative then
    { c1 with data := (c1.data.map (fun v => v / ref)).map (fun v => v * 100),
              units := "%" }
  else c1

/-- Row with its `matched_exp` column reset to the empty string
(`dataset['matched_exp'] = ''`). -/
def resetExp (r : Row) : Row := { r with matched_exp := "" }

/-- Embedding of `dataset.loc[sel]` with `sel = dataset['index_match_run'] > -1`:
the matched future rows together with their row labels. -/
def selRows (rows : List Row) : List (ℕ × Row) :=
  rows.enum.filter (fun p => -1 < p.2.index_match_run)

/-- Embedding of the `hist_data` block of `normalize`: for the `k`-th matched
future row (label `i`, row `r`), take the historical row `r` points to, give
it a fresh copy of its cube (`cube.copy()`; the copies are appended to the
store starting at position `base`), the future row's reference value, the
future row's label as `index_match_run`, and the future row's experiment as
`matched_exp`. -/
def dupRows (rows : List Row) (base : ℕ) : List Row :=
  (selRows rows).enum.map (fun q =>
    let h := rows.getD q.2.2.index_match_run.toNat defaultRow
    { h with cube := base + q.1,
             reference_value := q.2.2.reference_value,
             index_match_run := (q.2.1 : ℤ),
             matched_exp := q.2.2.experiment })

/-- Cube copies made for the duplicated historical rows, in the order of the
matched future rows. -/
def dupCubes (st : Store) (rows : List Row) : List Cube :=
  (selRows rows).map (fun q => rowCube st (rows.getD q.2.index_match_run.toNat defaultRow))

/-- Embedding of the in-place normalization loop
(`dataset['cube'] = list(map(func, zip(dataset['cube'], dataset['reference_value'])))`):
each row's cube is replaced in the store by its normalized version.  Rows
reaching this loop always carry a reference value; the `getD 0` default is
never exercised by the claims. -/
def storeNorm (relative : Bool) (st : Store) (rows : List Row) : Store :=
  rows.foldl
    (fun s r =>
      s.set r.cube (normalize_cube relative (s.getD r.cube emptyCube)
        (r.reference_value.getD 0))) st

/-- Embedding of `normalize`: reset `matched_exp`; for any grouping other
than `normby='model'`, append the per-match duplicated historical rows
(with freshly copied cubes) and drop every row without a reference value
(`dropna(subset=['reference_value'])`); finally run the in-place
normalization loop over the surviving rows.  Returns the mutated store and
the new row table. -/
def normalize (relative : Bool) (normby : String) (st : Store) (rows : List Row) :
    Store × List Row :=
  let rows1 := rows.map resetExp
  let stepped :=
    if normby = "model" then (st, rows1)
    else
      (st ++ dupCubes st rows1,
       (rows1 ++ dupRows rows1 st.length).filter (fun r => r.reference_value.isSome))
  (storeNorm relative stepped.1 stepped.2, stepped.2)

/-- Values of a cube at the given year: embedding of
`iris.Constraint(year=...)` extraction followed by reading `cube.data`.
The extraction yields `None` when no point matches; an empty list models
that case. -/
def extractYearVals (year : ℤ) (c : Cube) : List ℚ :=
  ((c.times.zip c.data).filter (fun p => p.1 = year)).map Prod.snd

/-- Grouping key used by `calc_percentile_year` when averaging across
experiments. -/
def rowKey (r : Row) : String × String × String := (r.model, r.experiment, r.matched_exp)

/-- Distinct `(model, experiment, matched_exp)` keys.  pandas `groupby`
sorts the group keys; we keep first-appearance order, which does not affect
the computed statistics (mean and percentiles are permutation invariant). -/
def groupKeys (rows : List Row) : List (String × String × String) :=
  (rows.map rowKey).eraseDups

/-- Data list assembled by `calc_percentile_year` for one year: without
experiment averaging, the year values of all rows' cubes (rows whose cube
does not cover the year contribute nothing — `filter(None, ...)` on the
extractions); with experiment averaging, one `np.mean` per group that has at
least one cube covering the year. -/
def yearData (avg : Bool) (st : Store) (rows : List Row) (year : ℤ) : List ℚ :=
  if avg then
    (groupKeys rows).filterMap (fun k =>
      let vals := ((rows.filter (fun r => rowKey r = k)).map
        (fun r => extractYearVals year (rowCube st r))).flatten
      if vals.isEmpty then none else some (listMean vals))
  else
    ((rows.map (fun r => extractYearVals year (rowCube st r))).flatten)

/-- Ascending sort of the samples (`np.percentile` sorts its input;
`overwrite_input=True` only allows the sort to happen in place). -/
def sortQ (xs : List ℚ) : List ℚ := List.insertionSort (fun a b => a ≤ b) xs

/-- Clipped indexing into the sorted sample list, as `np.percentile` clips
the interpolation neighbours to the valid index range. -/
def percGet (s : List ℚ) (i : ℕ) : ℚ := s.getD (min i (s.length - 1)) 0

/-- Linear interpolation of the sorted samples `s` at fractional rank `h`:
`s[⌊h⌋] + (h − ⌊h⌋)·(s[⌊h⌋+1] − s[⌊h⌋])` with clipped neighbours. -/
def interpAt (s : List ℚ) (h : ℚ) : ℚ :=
  percGet s ((⌊h⌋).toNat) +
    (h - (((⌊h⌋).toNat : ℕ) : ℚ)) *
      (percGet s ((⌊h⌋).toNat + 1) - percGet s ((⌊h⌋).toNat))

/-- Embedding of `np.percentile(xs, q)` with the default linear
interpolation: interpolate the sorted samples at rank `(n−1)·q/100`. -/
def percentile (xs : List ℚ) (q : ℚ) : ℚ :=
  interpAt (sortQ xs) ((((sortQ xs).length : ℚ) - 1) * q / 100)

/-- Result row of `calc_percentile_year`: the mean and the fixed percentile
columns. -/
structure YearStats where
  mean : ℚ
  p5 : ℚ
  p10 : ℚ
  p25 : ℚ
  p50 : ℚ
  p75 : ℚ
  p90 : ℚ
  p95 : ℚ

/-- Embedding of `calc_percentile_year`: assemble the year's data and
compute `np.mean` and `np.percentile(data, [5, 10, 25, 50, 75, 90, 95])`. -/
def calc_percentile_year (avg : Bool) (st : Store) (rows : List Row) (year : ℤ) :
    YearStats :=
  let data := yearData avg st rows year
  { mean := listMean data
    p5 := percentile data 5
    p10 := percentile data 10
    p25 := percentile data 25
    p50 := percentile data 50
    p75 := percentile data 75
    p90 := percentile data 90
    p95 := percentile data 95 }

end KCS

namespace MLR

/-- Metadata of one input dataset of `mlr/plot.py`, as consumed by
`get_input_datasets` and `_get_cube`. -/
structure Dataset where
  filename : String
  dataset : String
  project : String
  start_year : ℤ
  end_year : ℤ
  tag : String
deriving DecidableEq

/-- Character-list test: does `hay` start with `needle`? -/
def startsWithChars : List Char → List Char → Bool
  | [], _ => true
  | _ :: _, [] => false
  | a :: as, b :: bs => a = b && startsWithChars as bs

/-- Character-list substring test. -/
def containsChars (needle : List Char) : List Char → Bool
  | [] => needle.isEmpty
  | b :: bs => startsWithChars needle (b :: bs) || containsChars needle bs

/-- Embedding of the Python substring test `needle in hay`. -/
def pyIn (needle hay : String) : Bool := containsChars needle.data hay.data

/-- Minimum of a list of integers (Python `min` over a nonempty list; `0`
is a placeholder for the empty case that `_get_cube` never reaches with a
nonempty dataset list). -/
def minZ : List ℤ → ℤ
  | [] => 0
  | a :: as => as.foldl min a

/-- Cube produced by `_get_cube`, reduced to what the embedding tracks: the
source files the data came from (the single loaded file, or all aggregated
files in the squared-error branch — the numeric content is produced by the
external iris/mlr libraries) and the attributes written by the function. -/
structure MlrCube where
  srcFiles : List String
  dataset_attr : String
  end_year_attr : ℤ
  project_attr : String
  start_year_attr : ℤ
  tag_attr : String
  var_type_attr : String
  mlr_model_name_attr : Option String
deriving DecidableEq

/-- Attribute block written at the end of `_get_cube`.  Python builds
`dataset_names` and `projects` through a `set`, whose iteration order is
arbitrary; first-appearance order is used here. -/
def mkMlrCube (files : List String) (var_type : String) (model_name : Option String)
    (datasets : List Dataset) : MlrCube :=
  { srcFiles := files
    dataset_attr := String.intercalate "|" ((datasets.map (fun d => d.dataset)).eraseDups)
    end_year_attr := minZ (datasets.map (fun d => d.end_year))
    project_attr := String.intercalate "|" ((datasets.map (fun d => d.project)).eraseDups)
    start_year_attr := minZ (datasets.map (fun d => d.start_year))
    tag_attr := ((datasets.headD ⟨"", "", "", 0, 0, ""⟩).tag)
    var_type_attr := var_type
    mlr_model_name_attr := model_name }

/-- Embedding of `_get_cube`: error-type variables aggregate all datasets
(squared-error aggregation of the external `mlr` module, tracked through the
source files); any other variable type must come as exactly one dataset,
otherwise a `ValueError` aborts the run. -/
def _get_cube (var_type : String) (model_name : Option String)
    (datasets : List Dataset) : Except String MlrCube :=
  if pyIn "error" var_type then
    .ok (mkMlrCube (datasets.map (fun d => d.filename)) var_type model_name datasets)
  else if datasets.length ≠ 1 then
    .error "Expected exactly one dataset"
  else
    .ok (mkMlrCube [(datasets.headD ⟨"", "", "", 0, 0, ""⟩).filename] var_type
      model_name datasets)

/-- Embedding of `get_input_datasets`: collect the distinct `tag` values of
the input datasets (`group_metadata(input_data, 'tag')`); unless exactly one
tag is present, a `ValueError` aborts the run. -/
def get_input_datasets (input_data : List Dataset) : Except String (List Dataset) :=
  let tags := (input_data.map (fun d => d.tag)).eraseDups
  if tags.length ≠ 1 then .error "Expected unique tag for all input datasets"
  else .ok input_data

/-- Did the computation abort with an exception? -/
def isFatal {α : Type} : Except String α → Bool
  | .error _ => true
  | .ok _ => false

end MLR

namespace Uajet

/-- Embedding of Python/numpy basic slicing `xs[a:b]` (step 1): negative
bounds count from the end, bounds are clipped to the valid range, and an
empty range yields an empty selection. -/
def pySlice (xs : List ℚ) (a b : ℤ) : List ℚ :=
  let n : ℤ := (xs.length : ℤ)
  let s : ℕ := (if a < 0 then max (a + n) 0 else min a n).toNat
  let e : ℕ := (if b < 0 then max (b + n) 0 else min b n).toNat
  (xs.drop s).take (e - s)

/-- Embedding of `np.argmax`: index of the first occurrence of the maximum
value (`0` for the empty list, where numpy would raise). -/
def npArgmax : List ℚ → ℕ
  | [] => 0
  | [_] => 0
  | a :: b :: rest =>
    let j := npArgmax (b :: rest)
    if a < (b :: rest).getD j 0 then j + 1 else 0

/-- Embedding of the point selection of `DerivedVariable.calculate` in
`uajet.py`: `slc = slice(idx_max_ua - 1, idx_max_ua + 2)` applied to a
per-latitude list `ys` (both `ua_data[slc]` and
`time_slice.coord('latitude').points[slc]` use this slice). -/
def uajetSelect (ua ys : List ℚ) : List ℚ :=
  pySlice ys ((npArgmax ua : ℤ) - 1) ((npArgmax ua : ℤ) + 2)

end Uajet

namespace Witness

open KCS

/-- Future cube of model A: lies entirely outside the reference window
`[2000, 2001]`. -/
def aFutCube : Cube := ⟨[1990], [11], "K"⟩

/-- Historical cube of model A: one point inside the reference window. -/
def aHistCube : Cube := ⟨[2000], [9], "K"⟩

/-- Future cube of model B: one point inside the reference window, value 12. -/
def bFutCube : Cube := ⟨[2000], [12], "K"⟩

/-- Historical cube of model B: one point inside the reference window,
value 10. -/
def bHistCube : Cube := ⟨[2000], [10], "K"⟩

/-- Store for the reference-value misassignment scenario. -/
def refStore : Store := [aFutCube, aHistCube, bFutCube, bHistCube]

/-- Run table for the reference-value misassignment scenario: models A and B,
each with one matched future row and one historical row. -/
def refRows : List Row :=
  [⟨"A", "rcp45", 0, 1, none, ""⟩,
   ⟨"A", "historical", 1, -1, none, ""⟩,
   ⟨"B", "rcp45", 2, 3, none, ""⟩,
   ⟨"B", "historical", 3, -1, none, ""⟩]

/-- Historical cube used by the C1 witness. -/
def wHistCube : Cube := ⟨[0, 1], [10, 10], "K"⟩

/-- Future cube used by the C1 witness. -/
def wFutCube : Cube := ⟨[0, 1], [12, 12], "K"⟩

/-- Cube used by the C3 witness: two points inside the window `[0, 9]`. -/
def wC3Cube : Cube := ⟨[0, 5], [4, 6], "K"⟩

/-- Store for the C5 witness: one future cube and one historical cube. -/
def nStore : Store := [⟨[2000], [5], "K"⟩, ⟨[1999], [7], "K"⟩]

/-- Rows for the C5 witness: a matched future row with reference value 2 and
its historical row without a reference value. -/
def nRows : List Row :=
  [⟨"M", "rcp45", 0, 1, some 2, ""⟩,
   ⟨"M", "historical", 1, -1, none, ""⟩]

/-- Store for the C6 witness: two cubes covering year 2000. -/
def pStore : Store := [⟨[2000], [3], "K"⟩, ⟨[2000], [8], "K"⟩]

/-- Rows for the C6 witness. -/
def pRows : List Row :=
  [⟨"M", "rcp45", 0, 0, some 1, ""⟩,
   ⟨"M", "rcp45", 1, 0, some 1, ""⟩]

/-- Two MLR datasets with distinct tags. -/
def mlrTwoTags : List MLR.Dataset :=
  [⟨"f1.nc", "ds1", "p1", 1980, 2000, "tas"⟩,
   ⟨"f2.nc", "ds2", "p1", 1980, 2000, "pr"⟩]

/-- Two MLR datasets sharing a tag, offered for one non-error variable
type. -/
def mlrTwoDatasets : List MLR.Dataset :=
  [⟨"f1.nc", "ds1", "p1", 1980, 2000, "tas"⟩,
   ⟨"f2.nc", "ds2", "p1", 1980, 2000, "tas"⟩]

end Witness

end ESMValTool
namespace ESMValTool

open KCS Witness

/-- C1: for a group whose historical and future branches both have surviving
arrays, the computed reference value equals `(Hm·Hc + Fm·Fc)/(Hc + Fc)`
where `Hm`/`Fm` are the unweighted arithmetic means of the per-array window
means of the branch and `Hc`/`Fc` the unweighted arithmetic means of the
per-array sample counts. -/
theorem C1_reference_combination (w : ℤ × ℤ) (mdHist mdFut : ℕ)
    (cubes histcubes : List Cube)
    (hH : calc_mean w mdHist histcubes ≠ [])
    (hF : calc_mean w mdFut cubes ≠ []) :
    calc_refvalue w mdHist mdFut cubes histcubes =
      some ((listMean ((calc_mean w mdHist histcubes).map Prod.fst) *
              listMean ((calc_mean w mdHist histcubes).map (fun p => (p.2 : ℚ))) +
            listMean ((calc_mean w mdFut cubes).map Prod.fst) *
              listMean ((calc_mean w mdFut cubes).map (fun p => (p.2 : ℚ)))) /
           (listMean ((calc_mean w mdHist histcubes).map (fun p => (p.2 : ℚ))) +
            listMean ((calc_mean w mdFut cubes).map (fun p => (p.2 : ℚ))))) := by
  unfold calc_refvalue
  have h1 : (calc_mean w mdHist histcubes).isEmpty = false := by
    simp [List.isEmpty_iff, hH]
  have h2 : (calc_mean w mdFut cubes).isEmpty = false := by
    simp [List.isEmpty_iff, hF]
  simp [h1, h2, listMean, List.length_map]

/-- Witness for C1 at a concrete input: both branches have one surviving
array and the reference combines to `(10·2 + 12·2)/(2 + 2) = 11`. -/
theorem C1_witness :
    calc_mean (0, 1) 1 [wHistCube] ≠ [] ∧ calc_mean (0, 1) 1 [wFutCube] ≠ [] ∧
    calc_refvalue (0, 1) 1 1 [wFutCube] [wHistCube] = some 11 := by
  refine ⟨by decide, by decide, ?_⟩
  have hh : extractPeriod (0, 1) wHistCube = some ⟨[0, 1], [10, 10], "K"⟩ := by decide
  have hf : extractPeriod (0, 1) wFutCube = some ⟨[0, 1], [12, 12], "K"⟩ := by decide
  have eh : calc_mean (0, 1) 1 [wHistCube] = [(10, 2)] := by
    simp [calc_mean, hh, listMean]
  have ef : calc_mean (0, 1) 1 [wFutCube] = [(12, 2)] := by
    simp [calc_mean, hf, listMean]
  have h := C1_reference_combination (0, 1) 1 1 [wFutCube] [wHistCube] (by decide) (by decide)
  rw [h, eh, ef]
  norm_num [listMean]

end ESMValTool
namespace ESMValTool

open KCS Witness

/-- Auxiliary: `calc_mean` distributes over list append (each cube is
examined independently). -/
theorem calc_mean_append (w : ℤ × ℤ) (m : ℕ) (l1 l2 : List Cube) :
    calc_mean w m (l1 ++ l2) = calc_mean w m l1 ++ calc_mean w m l2 := by
  induction l1 with
  | nil => simp [calc_mean]
  | cons c t ih =>
    simp only [List.cons_append, calc_mean]
    cases hx : extractPeriod w c with
    | none => simpa [hx] using ih
    | some ex =>
      by_cases hlen : ex.times.length < m <;> simp [hx, hlen, ih]

/-- C4: with a nonzero reference `R`, relative-mode normalization maps every
value `V` to `(V − R)/R · 100` and relabels the unit to `%`; absolute mode
maps `V` to `V − R` and keeps the unit. -/
theorem C4_normalize_value_law (c : Cube) (R : ℚ) (hR : R ≠ 0) :
    ((normalize_cube true c R).data = c.data.map (fun v => (v - R) / R * 100) ∧
     (normalize_cube true c R).units = "%") ∧
    ((normalize_cube false c R).data = c.data.map (fun v => v - R) ∧
     (normalize_cube false c R).units = c.units) := by
  simp [normalize_cube, List.map_map]

/-- Witness for C4 at a concrete input: reference `4`, cube values `10`. -/
theorem C4_witness :
    (4 : ℚ) ≠ 0 ∧
    (normalize_cube true wHistCube 4).data = [150, 150] ∧
    (normalize_cube true wHistCube 4).units = "%" ∧
    (normalize_cube false wHistCube 4).data = [6, 6] ∧
    (normalize_cube false wHistCube 4).units = "K" := by
  have h := C4_normalize_value_law wHistCube 4 (by norm_num)
  refine ⟨by norm_num, ?_, h.1.2, ?_, ?_⟩
  · rw [h.1.1]; norm_num [wHistCube]
  · rw [h.2.1]; norm_num [wHistCube]
  · rw [h.2.2]; rfl

/-- C8: normalization never changes the time coordinate or the number of
data points of a cube, in either mode, and the unit label is kept in
absolute mode. -/
theorem C8_normalize_shape (c : Cube) (R : ℚ) (rel : Bool) :
    (normalize_cube rel c R).times = c.times ∧
    (normalize_cube rel c R).data.length = c.data.length ∧
    (normalize_cube false c R).units = c.units := by
  cases rel <;> simp [normalize_cube]

/-- C3: a window-restricted array contributes to `calc_mean` exactly when
its surviving sample count reaches the branch minimum — below the minimum it
is dropped without error, at or above it contributes its `(mean, count)`
pair — and the branch minima are 20 (historical) and 4 (future) for yearly
data, tripled in seasonal mode and multiplied by 12 in monthly mode. -/
theorem C3_minimum_sample_threshold :
    (∀ (w : ℤ × ℤ) (m : ℕ) (pre post : List Cube) (c ex : Cube),
        extractPeriod w c = some ex → ex.times.length < m →
        calc_mean w m (pre ++ c :: post) = calc_mean w m (pre ++ post)) ∧
    (∀ (w : ℤ × ℤ) (m : ℕ) (pre post : List Cube) (c ex : Cube),
        extractPeriod w c = some ex → m ≤ ex.times.length →
        calc_mean w m (pre ++ c :: post) =
          calc_mean w m pre ++ (listMean ex.data, ex.times.length) :: calc_mean w m post) ∧
    (∀ s, mkMindata true s = ⟨20, 4⟩) ∧
    (∀ sn, mkMindata false (some sn) = ⟨60, 12⟩) ∧
    mkMindata false none = ⟨240, 48⟩ := by
  refine ⟨?_, ?_, fun s => rfl, fun sn => rfl, rfl⟩
  · intro w m pre post c ex hx hlt
    rw [calc_mean_append, calc_mean_append]
    congr 1
    simp [calc_mean, hx, hlt]
  · intro w m pre post c ex hx hge
    rw [calc_mean_append]
    simp [calc_mean, hx, Nat.not_lt.2 hge]

/-- Witness for C3 at a concrete input: a cube with 2 surviving samples is
excluded at minimum 3 (= count + 1) and included at minimum 2 (= count),
and the yearly defaults are 20/4. -/
theorem C3_witness :
    calc_mean (0, 9) 3 [wC3Cube] = [] ∧
    calc_mean (0, 9) 2 [wC3Cube] = [(5, 2)] ∧
    mkMindata true none = ⟨20, 4⟩ := by
  have hx : extractPeriod (0, 9) wC3Cube = some ⟨[0, 5], [4, 6], "K"⟩ := by decide
  refine ⟨?_, ?_, C3_minimum_sample_threshold.2.2.1 none⟩
  · have h1 := C3_minimum_sample_threshold.1 (0, 9) 3 [] [] wC3Cube
      ⟨[0, 5], [4, 6], "K"⟩ hx (by norm_num)
    simpa [calc_mean] using h1
  · have h2 := C3_minimum_sample_threshold.2.1 (0, 9) 2 [] [] wC3Cube
      ⟨[0, 5], [4, 6], "K"⟩ hx (by norm_num)
    simp only [List.nil_append] at h2
    rw [h2]
    norm_num [calc_mean, listMean]

/-- C9: when a grouping expected to be unique is not — more than one
distinct `tag` across the input datasets, or more than one dataset for a
non-error variable type — the run aborts with a `ValueError` (no cube is
produced, so nothing is plotted or written). -/
theorem C9_cardinality_violation_fatal :
    (∀ input_data : List MLR.Dataset,
        2 ≤ ((input_data.map (fun d => d.tag)).eraseDups).length →
        MLR.isFatal (MLR.get_input_datasets input_data) = true) ∧
    (∀ (var_type : String) (model_name : Option String) (datasets : List MLR.Dataset),
        MLR.pyIn "error" var_type = false → 2 ≤ datasets.length →
        MLR.isFatal (MLR._get_cube var_type model_name datasets) = true) := by
  constructor
  · intro input_data h
    have hne : ((input_data.map (fun d => d.tag)).eraseDups).length ≠ 1 := by omega
    simp only [MLR.get_input_datasets]
    rw [if_pos hne]
    rfl
  · intro var_type model_name datasets hin hlen
    have hne : datasets.length ≠ 1 := by omega
    simp only [MLR._get_cube, hin]
    rw [if_neg (by simp), if_pos hne]
    rfl

/-- Witness for C9 at concrete inputs: two tags abort the dataset grouping,
and two datasets for the non-error variable type `prediction` abort the
cube lookup. -/
theorem C9_witness :
    2 ≤ ((mlrTwoTags.map (fun d => d.tag)).eraseDups).length ∧
    MLR.isFatal (MLR.get_input_datasets mlrTwoTags) = true ∧
    MLR.pyIn "error" "prediction" = false ∧
    2 ≤ mlrTwoDatasets.length ∧
    MLR.isFatal (MLR._get_cube "prediction" none mlrTwoDatasets) = true := by
  refine ⟨by decide, ?_, by decide, by decide, ?_⟩
  · exact C9_cardinality_violation_fatal.1 mlrTwoTags (by decide)
  · exact C9_cardinality_violation_fatal.2 "prediction" none mlrTwoDatasets
      (by decide) (by decide)

end ESMValTool
namespace ESMValTool

open KCS Witness

/-- C2: evaluation of `calculate_reference_values` (grouping `normby='model'`)
at a run table where model A's future branch has zero surviving arrays while
model B computes the reference `11`.  `calc_refvalue` duly returns `None`
for A without raising, but `dict(zip(models, filter(None, reference_values)))`
drops the `None` *before* zipping, pairing model A with model B's value:
A's rows receive the reference `11` of the excluded group's neighbour and
B's rows receive none — the spec instead requires A's rows to receive no
reference value and B's rows to keep their own. -/
theorem C2_zero_branch_misassignment :
    modelRefvalue (2000, 2001) ⟨1, 1⟩ refStore refRows "A" = none ∧
    modelRefvalue (2000, 2001) ⟨1, 1⟩ refStore refRows "B" = some 11 ∧
    ((calculate_reference_values_model (2000, 2001) ⟨1, 1⟩ refStore refRows).map
        (fun r => r.reference_value)) = [some 11, some 11, none, none] := by
  have hA : modelRefvalue (2000, 2001) ⟨1, 1⟩ refStore refRows "A" = none := by decide
  have hmap1 : ((futureData refStore refRows).filter (fun p => p.1.model = "B")).map
      (fun p => rowCube refStore p.1) = [bFutCube] := by decide
  have hmap2 : ((futureData refStore refRows).filter (fun p => p.1.model = "B")).map
      Prod.snd = [bHistCube] := by decide
  have hexf : extractPeriod (2000, 2001) bFutCube = some bFutCube := by decide
  have hexh : extractPeriod (2000, 2001) bHistCube = some bHistCube := by decide
  have ef : calc_mean (2000, 2001) 1 [bFutCube] = [(12, 1)] := by
    simp only [calc_mean, hexf]
    norm_num [bFutCube, listMean]
  have eh : calc_mean (2000, 2001) 1 [bHistCube] = [(10, 1)] := by
    simp only [calc_mean, hexh]
    norm_num [bHistCube, listMean]
  have hB : modelRefvalue (2000, 2001) ⟨1, 1⟩ refStore refRows "B" = some 11 := by
    simp only [modelRefvalue, hmap1, hmap2, calc_refvalue, ef, eh]
    norm_num
  refine ⟨hA, hB, ?_⟩
  have hm : (refRows.map (fun r => r.model)).eraseDups = ["A", "B"] := by decide
  simp only [calculate_reference_values_model, hm, List.map_cons, List.map_nil, hA, hB]
  norm_num [pyFilterTruthy, List.lookup, refRows]
  rfl

end ESMValTool
namespace ESMValTool

namespace Uajet

/-- Auxiliary: `npArgmax` returns a valid index attaining the maximum
value. -/
theorem npArgmax_spec : ∀ xs : List ℚ, xs ≠ [] →
    npArgmax xs < xs.length ∧ ∀ j, j < xs.length → xs.getD j 0 ≤ xs.getD (npArgmax xs) 0
  | [], h => absurd rfl h
  | [a], _ => by simp [npArgmax]
  | a :: b :: rest, _ => by
    have ih := npArgmax_spec (b :: rest) (by simp)
    simp only [npArgmax]
    by_cases hlt : a < (b :: rest).getD (npArgmax (b :: rest)) 0
    · rw [if_pos hlt]
      refine ⟨by simpa using Nat.succ_lt_succ ih.1, ?_⟩
      intro j hj
      cases j with
      | zero => simpa using le_of_lt hlt
      | succ k =>
        simp only [List.getD_cons_succ]
        exact ih.2 k (by simpa using hj)
    · rw [if_neg hlt]
      refine ⟨Nat.succ_pos _, ?_⟩
      intro j hj
      cases j with
      | zero => simp
      | succ k =>
        simp only [List.getD_cons_succ, List.getD_cons_zero]
        exact le_trans (ih.2 k (by simpa using hj)) (not_lt.1 hlt)

end Uajet

open Uajet in
/-- C10: the jet-latitude fit of `uajet.py` is taken over
`slice(idx−1, idx+2)` around the index `idx` of the first maximum of the
zonal-mean wind; the slice yields exactly the three centred points only when
the maximum lies strictly inside the latitude range — at the first index it
selects no points at all (for more than two latitudes), at the last index
fewer than three, leaving the degree-2 fit under-determined. -/
theorem C10_jet_fit_window :
    (∀ ua : List ℚ, ua ≠ [] →
        npArgmax ua < ua.length ∧
        ∀ j, j < ua.length → ua.getD j 0 ≤ ua.getD (npArgmax ua) 0) ∧
    (∀ ua ys : List ℚ, ys.length = ua.length → npArgmax ua = 0 → 2 < ua.length →
        uajetSelect ua ys = []) ∧
    (∀ ua ys : List ℚ, ys.length = ua.length → ua ≠ [] →
        npArgmax ua = ua.length - 1 → (uajetSelect ua ys).length < 3) ∧
    (∀ ua ys : List ℚ, ys.length = ua.length → 0 < npArgmax ua →
        npArgmax ua + 1 < ua.length →
        uajetSelect ua ys = (ys.drop (npArgmax ua - 1)).take 3 ∧
        (uajetSelect ua ys).length = 3) := by
  refine ⟨npArgmax_spec, ?_, ?_, ?_⟩
  · intro ua ys hlen h0 h2
    simp only [uajetSelect, pySlice, h0]
    norm_num
    left
    omega
  · intro ua ys hlen hne hidx
    have hpos : 0 < ua.length := List.length_pos.2 hne
    simp only [uajetSelect, pySlice, hidx, List.length_take, List.length_drop]
    split_ifs <;> omega
  · intro ua ys hlen h0 h1
    have hs : ¬ ((npArgmax ua : ℤ) - 1 < 0) := by omega
    have he : ¬ ((npArgmax ua : ℤ) + 2 < 0) := by omega
    have heq : uajetSelect ua ys = (ys.drop (npArgmax ua - 1)).take 3 := by
      simp only [uajetSelect, pySlice]
      rw [if_neg hs, if_neg he]
      have e1 : (min ((npArgmax ua : ℤ) - 1) (ys.length : ℤ)).toNat = npArgmax ua - 1 := by
        omega
      have e2 : (min ((npArgmax ua : ℤ) + 2) (ys.length : ℤ)).toNat -
          (min ((npArgmax ua : ℤ) - 1) (ys.length : ℤ)).toNat = 3 := by
        omega
      rw [e2, e1]
    refine ⟨heq, ?_⟩
    rw [heq]
    simp only [List.length_take, List.length_drop]
    omega

open Uajet in
/-- Witness for C10 at concrete inputs: with the maximum at the first of
three latitudes the slice is empty, and with an interior maximum it selects
the three centred points. -/
theorem C10_witness :
    ([5, 2, 1] : List ℚ).length = 3 ∧ npArgmax [5, 2, 1] = 0 ∧
    uajetSelect [5, 2, 1] [5, 2, 1] = [] ∧
    npArgmax [1, 5, 2] = 1 ∧
    uajetSelect [1, 5, 2] [1, 5, 2] = [1, 5, 2] := by
  refine ⟨by decide, by decide, ?_, by decide, ?_⟩
  · exact C10_jet_fit_window.2.1 [5, 2, 1] [5, 2, 1] rfl (by decide) (by decide)
  · have h := (C10_jet_fit_window.2.2.2 [1, 5, 2] [1, 5, 2] rfl (by decide) (by decide)).1
    rw [h]
    decide

end ESMValTool
namespace ESMValTool

namespace KCS

/-- Auxiliary: the sorted sample list is sorted. -/
theorem sortQ_sorted (xs : List ℚ) : (sortQ xs).Sorted (fun a b : ℚ => a ≤ b) :=
  List.sorted_insertionSort _ xs

/-- Auxiliary: sorting preserves the number of samples. -/
theorem sortQ_length (xs : List ℚ) : (sortQ xs).length = xs.length :=
  List.length_insertionSort _ xs

/-- Auxiliary: clipped indexing into a sorted list is monotone in the
index. -/
theorem percGet_mono {s : List ℚ} (hs : s.Sorted (fun a b : ℚ => a ≤ b))
    (hne : s ≠ []) {i j : ℕ} (hij : i ≤ j) : percGet s i ≤ percGet s j := by
  have hlen : 0 < s.length := List.length_pos.2 hne
  have hi : min i (s.length - 1) < s.length := by omega
  have hj : min j (s.length - 1) < s.length := by omega
  unfold percGet
  rw [List.getD_eq_get _ _ hi, List.getD_eq_get _ _ hj]
  exact hs.rel_get_of_le (by simp only [Fin.mk_le_mk]; omega)

/-- Auxiliary: linear interpolation at a nonnegative rank is at least the
value at the rank's floor. -/
theorem interpAt_lower {s : List ℚ} (hs : s.Sorted (fun a b : ℚ => a ≤ b))
    (hne : s ≠ []) {h : ℚ} (h0 : 0 ≤ h) :
    percGet s ((⌊h⌋).toNat) ≤ interpAt s h := by
  unfold interpAt
  have hz : (0 : ℤ) ≤ ⌊h⌋ := Int.floor_nonneg.2 h0
  have hfl : (((⌊h⌋).toNat : ℚ)) ≤ h := by
    have : (((⌊h⌋).toNat : ℤ) : ℚ) = ((⌊h⌋ : ℤ) : ℚ) := by
      rw [Int.toNat_of_nonneg hz]
    push_cast at this
    rw [this]
    exact Int.floor_le h
  have hD := percGet_mono hs hne (Nat.le_add_right ((⌊h⌋).toNat) 1)
  nlinarith [hD, hfl]

/-- Auxiliary: linear interpolation at a nonnegative rank is at most the
value one past the rank's floor. -/
theorem interpAt_upper {s : List ℚ} (hs : s.Sorted (fun a b : ℚ => a ≤ b))
    (hne : s ≠ []) {h : ℚ} (h0 : 0 ≤ h) :
    interpAt s h ≤ percGet s ((⌊h⌋).toNat + 1) := by
  unfold interpAt
  have hz : (0 : ℤ) ≤ ⌊h⌋ := Int.floor_nonneg.2 h0
  have hcast : (((⌊h⌋).toNat : ℚ)) = ((⌊h⌋ : ℤ) : ℚ) := by
    have : (((⌊h⌋).toNat : ℤ) : ℚ) = ((⌊h⌋ : ℤ) : ℚ) := by
      rw [Int.toNat_of_nonneg hz]
    push_cast at this
    exact this
  have hg : h - (((⌊h⌋).toNat : ℚ)) < 1 := by
    rw [hcast]
    have := Int.lt_floor_add_one h
    linarith
  have hD := percGet_mono hs hne (Nat.le_add_right ((⌊h⌋).toNat) 1)
  nlinarith [hD, hg]

/-- Auxiliary: linear interpolation over a sorted list is monotone in the
rank. -/
theorem interpAt_mono {s : List ℚ} (hs : s.Sorted (fun a b : ℚ => a ≤ b))
    (hne : s ≠ []) {h1 h2 : ℚ} (h0 : 0 ≤ h1) (h12 : h1 ≤ h2) :
    interpAt s h1 ≤ interpAt s h2 := by
  have h0' : 0 ≤ h2 := le_trans h0 h12
  by_cases heq : (⌊h1⌋).toNat = (⌊h2⌋).toNat
  · unfold interpAt
    rw [heq]
    have hD := percGet_mono hs hne (Nat.le_add_right ((⌊h2⌋).toNat) 1)
    nlinarith [hD, h12]
  · have hij : (⌊h1⌋).toNat ≤ (⌊h2⌋).toNat := by
      have := Int.floor_le_floor h12
      omega
    have hstep : (⌊h1⌋).toNat + 1 ≤ (⌊h2⌋).toNat := by omega
    calc interpAt s h1 ≤ percGet s ((⌊h1⌋).toNat + 1) := interpAt_upper hs hne h0
      _ ≤ percGet s ((⌊h2⌋).toNat) := percGet_mono hs hne hstep
      _ ≤ interpAt s h2 := interpAt_lower hs hne h0'

/-- Auxiliary: `np.percentile` with linear interpolation is monotone in the
requested percentile. -/
theorem percentile_mono (xs : List ℚ) (hne : xs ≠ []) {q1 q2 : ℚ} (h0 : 0 ≤ q1)
    (h12 : q1 ≤ q2) : percentile xs q1 ≤ percentile xs q2 := by
  have hsne : sortQ xs ≠ [] := by
    intro hcon
    apply hne
    have hl := sortQ_length xs
    rw [hcon] at hl
    exact List.length_eq_zero.1 hl.symm
  have hN : (0 : ℚ) ≤ ((sortQ xs).length : ℚ) - 1 := by
    have h1 : 0 < (sortQ xs).length := List.length_pos.2 hsne
    have h2 : (1 : ℚ) ≤ ((sortQ xs).length : ℚ) := by exact_mod_cast h1
    linarith
  unfold percentile
  apply interpAt_mono (sortQ_sorted xs) hsne
  · positivity
  · gcongr

end KCS

open KCS Witness in
/-- C6: for any computed year row with at least one contributing value, the
percentile columns are ordered `p5 ≤ p10 ≤ p25 ≤ p50 ≤ p75 ≤ p90 ≤ p95`. -/
theorem C6_percentile_monotonicity (avg : Bool) (st : Store) (rows : List Row)
    (year : ℤ) (hne : yearData avg st rows year ≠ []) :
    (calc_percentile_year avg st rows year).p5 ≤ (calc_percentile_year avg st rows year).p10 ∧
    (calc_percentile_year avg st rows year).p10 ≤ (calc_percentile_year avg st rows year).p25 ∧
    (calc_percentile_year avg st rows year).p25 ≤ (calc_percentile_year avg st rows year).p50 ∧
    (calc_percentile_year avg st rows year).p50 ≤ (calc_percentile_year avg st rows year).p75 ∧
    (calc_percentile_year avg st rows year).p75 ≤ (calc_percentile_year avg st rows year).p90 ∧
    (calc_percentile_year avg st rows year).p90 ≤ (calc_percentile_year avg st rows year).p95 := by
  simp only [calc_percentile_year]
  refine ⟨?_, ?_, ?_, ?_, ?_, ?_⟩ <;>
    exact percentile_mono _ hne (by norm_num) (by norm_num)

open KCS Witness in
/-- Witness for C6 at a concrete input: two rows contribute the values 3
and 8 for year 2000. -/
theorem C6_witness :
    yearData false pStore pRows 2000 ≠ [] ∧
    ((calc_percentile_year false pStore pRows 2000).p5 ≤
        (calc_percentile_year false pStore pRows 2000).p10 ∧
      (calc_percentile_year false pStore pRows 2000).p10 ≤
        (calc_percentile_year false pStore pRows 2000).p25 ∧
      (calc_percentile_year false pStore pRows 2000).p25 ≤
        (calc_percentile_year false pStore pRows 2000).p50 ∧
      (calc_percentile_year false pStore pRows 2000).p50 ≤
        (calc_percentile_year false pStore pRows 2000).p75 ∧
      (calc_percentile_year false pStore pRows 2000).p75 ≤
        (calc_percentile_year false pStore pRows 2000).p90 ∧
      (calc_percentile_year false pStore pRows 2000).p90 ≤
        (calc_percentile_year false pStore pRows 2000).p95) :=
  ⟨by decide, C6_percentile_monotonicity false pStore pRows 2000 (by decide)⟩

end ESMValTool
namespace ESMValTool

namespace KCS

/-- Auxiliary: unfolding of one step of the normalization loop. -/
theorem storeNorm_cons (rel : Bool) (st : Store) (r : Row) (t : List Row) :
    storeNorm rel st (r :: t) =
      storeNorm rel
        (st.set r.cube (normalize_cube rel (st.getD r.cube emptyCube)
          (r.reference_value.getD 0))) t := rfl

/-- Auxiliary: the normalization loop preserves the size of the store. -/
theorem storeNorm_length (rel : Bool) (st : Store) (rows : List Row) :
    (storeNorm rel st rows).length = st.length := by
  induction rows generalizing st with
  | nil => rfl
  | cons r t ih =>
    rw [storeNorm_cons, ih]
    simp

/-- Auxiliary: `List.set` at a different position does not change `getD`. -/
theorem getD_set_ne (l : Store) (i j : ℕ) (a : Cube) (hij : i ≠ j) :
    (l.set i a).getD j emptyCube = l.getD j emptyCube := by
  simp [List.getD_eq_getD_get?, List.get?_eq_getElem?, List.getElem?_set_ne hij]

/-- Auxiliary: `List.set` at a valid position updates `getD` there. -/
theorem getD_set_self (l : Store) (i : ℕ) (a : Cube) (hi : i < l.length) :
    (l.set i a).getD i emptyCube = a := by
  rw [List.getD_eq_getElem _ _ (by simpa using hi)]
  simp [hi]

/-- Auxiliary: the normalization loop leaves untouched every store position
no processed row points at. -/
theorem storeNorm_getD_not_mem (rel : Bool) :
    ∀ (rows : List Row) (st : Store) (j : ℕ),
      (∀ r ∈ rows, r.cube ≠ j) →
      (storeNorm rel st rows).getD j emptyCube = st.getD j emptyCube
  | [], _, _, _ => rfl
  | a :: t, st, j, h => by
    rw [storeNorm_cons,
      storeNorm_getD_not_mem rel t _ j (fun r hr => h r (List.mem_cons_of_mem _ hr))]
    exact getD_set_ne _ _ _ _ (h a (List.mem_cons_self _ _))

/-- Auxiliary: when the processed rows point at pairwise distinct cubes, the
normalization loop rewrites the store position of each row exactly once,
with that row's own reference value. -/
theorem storeNorm_getD_mem (rel : Bool) :
    ∀ (rows : List Row) (st : Store) (r : Row),
      ((rows.map (fun x => x.cube)).Nodup) → r ∈ rows → r.cube < st.length →
      (storeNorm rel st rows).getD r.cube emptyCube =
        normalize_cube rel (st.getD r.cube emptyCube) (r.reference_value.getD 0)
  | [], _, _, _, hmem, _ => absurd hmem (by simp)
  | a :: t, st, r, hnodup, hmem, hlt => by
    have hn1 : a.cube ∉ t.map (fun x => x.cube) :=
      (List.nodup_cons.1 (by simpa using hnodup)).1
    have hn2 : (t.map (fun x => x.cube)).Nodup :=
      (List.nodup_cons.1 (by simpa using hnodup)).2
    rw [storeNorm_cons]
    rcases List.mem_cons.1 hmem with heq | hmemt
    · subst heq
      have hnot : ∀ x ∈ t, x.cube ≠ r.cube := by
        intro x hx hc
        exact hn1 (hc ▸ List.mem_map_of_mem _ hx)
      rw [storeNorm_getD_not_mem rel t _ _ hnot]
      exact getD_set_self _ _ _ hlt
    · have hne : a.cube ≠ r.cube := by
        intro hc
        exact hn1 (hc ▸ List.mem_map_of_mem _ hmemt)
      rw [storeNorm_getD_mem rel t _ r hn2 hmemt (by simpa using hlt)]
      rw [getD_set_ne _ _ _ _ hne]

/-- Auxiliary: `getD` with the placeholder row commutes with the
`matched_exp` reset. -/
theorem getD_map_resetExp (rows : List Row) (n : ℕ) :
    (rows.map resetExp).getD n defaultRow = resetExp (rows.getD n defaultRow) := by
  by_cases h : n < rows.length
  · rw [List.getD_eq_getElem _ _ (by simpa using h), List.getD_eq_getElem _ _ h]
    simp
  · rw [List.getD_eq_default _ _ (by simpa using Nat.le_of_not_lt h),
      List.getD_eq_default _ _ (Nat.le_of_not_lt h)]
    rfl

/-- Auxiliary: resetting `matched_exp` commutes with selecting the matched
rows. -/
theorem selRows_map_reset (rows : List Row) :
    selRows (rows.map resetExp) = (selRows rows).map (fun p => (p.1, resetExp p.2)) := by
  unfold selRows
  rw [List.enum_map, List.filter_map]
  rfl

/-- Auxiliary: resetting `matched_exp` does not change the number of matched
rows. -/
theorem selRows_length_reset (rows : List Row) :
    (selRows (rows.map resetExp)).length = (selRows rows).length := by
  rw [selRows_map_reset, List.length_map]

/-- Auxiliary: one duplicated historical row per matched future row. -/
theorem dupRows_length (rows : List Row) (base : ℕ) :
    (dupRows rows base).length = (selRows rows).length := by
  unfold dupRows
  simp

/-- Auxiliary: one copied cube per matched future row. -/
theorem dupCubes_length (st : Store) (rows : List Row) :
    (dupCubes st rows).length = (selRows rows).length := by
  unfold dupCubes
  simp

/-- Auxiliary: the duplicated rows hold the fresh cube indices
`base, base+1, …` in order. -/
theorem dupRows_map_cube (rows : List Row) (base : ℕ) :
    (dupRows rows base).map (fun r => r.cube) =
      (List.range (selRows rows).length).map (fun k => base + k) := by
  unfold dupRows
  rw [List.map_map]
  have h1 : ((fun r : Row => r.cube) ∘
      (fun q : ℕ × (ℕ × Row) =>
        { rows.getD q.2.2.index_match_run.toNat defaultRow with
            cube := base + q.1,
            reference_value := q.2.2.reference_value,
            index_match_run := (q.2.1 : ℤ),
            matched_exp := q.2.2.experiment })) =
      ((fun k => base + k) ∘ Prod.fst) := rfl
  rw [h1, ← List.map_map, List.enum_map_fst]

end KCS

end ESMValTool
namespace ESMValTool

namespace KCS

/-- Auxiliary: shape of the `k`-th duplicated historical row: the matched
historical row with a fresh cube index, the future row's reference value and
label, and the future row's experiment recorded as `matched_exp`. -/
theorem dupRows_getD (rows : List Row) (base k : ℕ) (hk : k < (selRows rows).length) :
    (dupRows rows base).getD k defaultRow =
      { rows.getD (((selRows rows).getD k (0, defaultRow)).2.index_match_run.toNat)
          defaultRow with
          cube := base + k,
          reference_value := ((selRows rows).getD k (0, defaultRow)).2.reference_value,
          index_match_run := ((((selRows rows).getD k (0, defaultRow)).1 : ℕ) : ℤ),
          matched_exp := ((selRows rows).getD k (0, defaultRow)).2.experiment } := by
  have hk2 : k < (dupRows rows base).length := by rw [dupRows_length]; exact hk
  rw [List.getD_eq_getElem _ _ hk2]
  rw [List.getD_eq_getElem (selRows rows) (0, defaultRow) hk]
  unfold dupRows
  simp [List.getElem_enum]

/-- Auxiliary: value of the `k`-th copied cube: the cube of the matched
historical row, resolved in the pre-normalization store. -/
theorem dupCubes_getD (st : Store) (rows : List Row) (k : ℕ)
    (hk : k < (selRows rows).length) :
    (dupCubes st rows).getD k emptyCube =
      rowCube st (rows.getD
        (((selRows rows).getD k (0, defaultRow)).2.index_match_run.toNat)
        defaultRow) := by
  have hk2 : k < (dupCubes st rows).length := by rw [dupCubes_length]; exact hk
  rw [List.getD_eq_getElem _ _ hk2]
  rw [List.getD_eq_getElem (selRows rows) (0, defaultRow) hk]
  unfold dupCubes
  simp

/-- Auxiliary: resetting `matched_exp` acts pointwise on the selected
matched rows. -/
theorem selRows_getD_reset (rows : List Row) (k : ℕ) :
    (selRows (rows.map resetExp)).getD k (0, defaultRow) =
      (((selRows rows).getD k (0, defaultRow)).1,
        resetExp ((selRows rows).getD k (0, defaultRow)).2) := by
  rw [selRows_map_reset]
  show ((selRows rows).map (fun p => (p.1, resetExp p.2))).getD k
      ((fun p : ℕ × Row => (p.1, resetExp p.2)) (0, defaultRow)) = _
  rw [List.getD_map]

/-- Auxiliary: filtering a zipped list on the element alone keeps as many
entries as filtering the plain list. -/
theorem length_filter_zip_snd {α : Type} (pred : α → Bool) :
    ∀ (l : List α) (ks : List ℕ), ks.length = l.length →
      ((ks.zip l).filter (fun q => pred q.2)).length = (l.filter pred).length
  | [], ks, _ => by simp
  | a :: t, [], h => by simp at h
  | a :: t, k :: kt, h => by
    have ih := length_filter_zip_snd pred t kt (by simpa using h)
    by_cases hp : pred a <;> simp [List.filter_cons, hp, ih]

/-- Auxiliary: as many enumerated entries satisfy an element predicate as in
the unlabelled list. -/
theorem length_filter_enum_snd {α : Type} (pred : α → Bool) (l : List α) :
    ((l.enum).filter (fun q => pred q.2)).length = (l.filter pred).length := by
  rw [List.enum_eq_zip_range]
  exact length_filter_zip_snd pred l (List.range l.length) (by simp)

end KCS

end ESMValTool
namespace ESMValTool

open KCS Witness

/-- C5: for any grouping other than per-model, `normalize` duplicates the
matched historical rows once per matched future row — each duplicate holding
a freshly copied cube, the future row's reference value and label, and the
future row's experiment recorded as `matched_exp` — discards every row
without a reference value, and then normalizes each surviving row's cube
exactly once against that row's own reference value: the arrays of dropped
original rows are untouched and each duplicate is normalized from the
original historical array, independently of the original and of every other
duplicate. -/
theorem C5_fanout_duplication
    (st : Store) (rows : List Row) (rel : Bool) (normby : String)
    (hnm : normby ≠ "model")
    (hcube : ∀ r ∈ rows, r.cube < st.length)
    (hnodup : (rows.map (fun r => r.cube)).Nodup) :
    ((normalize rel normby st rows).2.length =
        (rows.filter (fun r => r.reference_value.isSome)).length +
          ((selRows rows).filter (fun q => q.2.reference_value.isSome)).length) ∧
    (∀ r ∈ (normalize rel normby st rows).2, r.reference_value.isSome = true) ∧
    (∀ k : ℕ, k < (selRows rows).length →
        (dupRows (rows.map resetExp) st.length).getD k defaultRow =
          { rows.getD (((selRows rows).getD k (0, defaultRow)).2.index_match_run.toNat)
              defaultRow with
              cube := st.length + k,
              reference_value := ((selRows rows).getD k (0, defaultRow)).2.reference_value,
              index_match_run := ((((selRows rows).getD k (0, defaultRow)).1 : ℕ) : ℤ),
              matched_exp := ((selRows rows).getD k (0, defaultRow)).2.experiment }) ∧
    (∀ r ∈ rows, r.reference_value = none →
        (normalize rel normby st rows).1.getD r.cube emptyCube =
          st.getD r.cube emptyCube) ∧
    (∀ r ∈ rows, ∀ v : ℚ, r.reference_value = some v →
        (normalize rel normby st rows).1.getD r.cube emptyCube =
          normalize_cube rel (st.getD r.cube emptyCube) v) ∧
    (∀ k : ℕ, k < (selRows rows).length →
        (((selRows rows).getD k (0, defaultRow)).2.reference_value).isSome = true →
        (normalize rel normby st rows).1.getD (st.length + k) emptyCube =
          normalize_cube rel
            (st.getD
              ((rows.getD
                (((selRows rows).getD k (0, defaultRow)).2.index_match_run.toNat)
                defaultRow).cube) emptyCube)
            (((selRows rows).getD k (0, defaultRow)).2.reference_value.getD 0)) := by
  have hsel1len : (selRows (rows.map resetExp)).length = (selRows rows).length :=
    selRows_length_reset rows
  have hcubes1 : ((rows.map resetExp).map (fun r => r.cube)) =
      rows.map (fun r => r.cube) := by
    rw [List.map_map]
    rfl
  have hnorm : normalize rel normby st rows =
      (storeNorm rel (st ++ dupCubes st (rows.map resetExp))
        (((rows.map resetExp) ++ dupRows (rows.map resetExp) st.length).filter
          (fun r => r.reference_value.isSome)),
       ((rows.map resetExp) ++ dupRows (rows.map resetExp) st.length).filter
         (fun r => r.reference_value.isSome)) := by
    simp only [KCS.normalize, if_neg hnm]
  have hsnd : (normalize rel normby st rows).2 =
      ((rows.map resetExp) ++ dupRows (rows.map resetExp) st.length).filter
        (fun r => r.reference_value.isSome) := by
    rw [hnorm]
  have hfst : (normalize rel normby st rows).1 =
      storeNorm rel (st ++ dupCubes st (rows.map resetExp))
        (((rows.map resetExp) ++ dupRows (rows.map resetExp) st.length).filter
          (fun r => r.reference_value.isSome)) := by
    rw [hnorm]
  have hdupcube : (dupRows (rows.map resetExp) st.length).map (fun r => r.cube) =
      (List.range (selRows rows).length).map (fun k => st.length + k) := by
    rw [dupRows_map_cube, hsel1len]
  have hfullnodup : (((rows.map resetExp) ++
      dupRows (rows.map resetExp) st.length).map (fun r => r.cube)).Nodup := by
    rw [List.map_append, hcubes1, hdupcube, List.nodup_append]
    refine ⟨hnodup, ?_, ?_⟩
    · refine List.Nodup.map ?_ (List.nodup_range _)
      intro a b hab
      have hab2 : st.length + a = st.length + b := hab
      omega
    · intro x hx1 hx2
      rcases List.mem_map.1 hx1 with ⟨r, hr, hxr⟩
      rcases List.mem_map.1 hx2 with ⟨k, hk, hxk⟩
      have h1 : r.cube = x := hxr
      have h2 : st.length + k = x := hxk
      have h3 := hcube r hr
      omega
  have hfinnodup : (((((rows.map resetExp) ++
      dupRows (rows.map resetExp) st.length).filter
        (fun r => r.reference_value.isSome))).map (fun r => r.cube)).Nodup :=
    List.Nodup.sublist (List.Sublist.map _ (List.filter_sublist _)) hfullnodup
  have hstlen : (st ++ dupCubes st (rows.map resetExp)).length =
      st.length + (selRows rows).length := by
    rw [List.length_append, dupCubes_length, hsel1len]
  refine ⟨?_, ?_, ?_, ?_, ?_, ?_⟩
  · -- lengths: one duplicate per matched row, rows without reference dropped
    rw [hsnd, List.filter_append, List.length_append]
    congr 1
    · rw [List.filter_map, List.length_map]
      rfl
    · have e1 := length_filter_enum_snd
        (fun pr : ℕ × Row => pr.2.reference_value.isSome) (selRows (rows.map resetExp))
      have e2 : ((selRows (rows.map resetExp)).filter
          (fun pr => pr.2.reference_value.isSome)).length =
          ((selRows rows).filter (fun q => q.2.reference_value.isSome)).length := by
        rw [selRows_map_reset, List.filter_map, List.length_map]
        rfl
      have e3 : ((dupRows (rows.map resetExp) st.length).filter
          (fun r => r.reference_value.isSome)).length =
          (((selRows (rows.map resetExp)).enum).filter
            (fun q => q.2.2.reference_value.isSome)).length := by
        unfold dupRows
        rw [List.filter_map, List.length_map]
        rfl
      exact e3.trans (e1.trans e2)
  · -- every surviving row carries a reference value
    intro r hr
    rw [hsnd] at hr
    exact (List.mem_filter.1 hr).2
  · -- shape of each duplicated row
    intro k hk
    have hk1 : k < (selRows (rows.map resetExp)).length := by
      rw [hsel1len]; exact hk
    rw [dupRows_getD (rows.map resetExp) st.length k hk1, selRows_getD_reset,
      getD_map_resetExp]
    rfl
  · -- dropped original rows keep their arrays untouched
    intro r hr hnone
    rw [hfst]
    have hne : ∀ r' ∈ ((rows.map resetExp) ++
        dupRows (rows.map resetExp) st.length).filter
          (fun x => x.reference_value.isSome), r'.cube ≠ r.cube := by
      intro r' hr' hc
      have hp : r'.reference_value.isSome = true := (List.mem_filter.1 hr').2
      rcases List.mem_append.1 (List.mem_of_mem_filter hr') with h1 | h2
      · rcases List.mem_map.1 h1 with ⟨r0, hr0, rfl⟩
        have hcc : r0.cube = r.cube := by simpa [resetExp] using hc
        have hr0r : r0 = r := List.inj_on_of_nodup_map hnodup hr0 hr hcc
        rw [hr0r] at hp
        simp [resetExp, hnone] at hp
      · have hmem2 : r'.cube ∈ (dupRows (rows.map resetExp) st.length).map
            (fun x => x.cube) := List.mem_map_of_mem _ h2
        rw [hdupcube] at hmem2
        rcases List.mem_map.1 hmem2 with ⟨k, hk, hxk⟩
        have h2' : st.length + k = r'.cube := hxk
        have h3 := hcube r hr
        omega
    rw [storeNorm_getD_not_mem rel _ _ _ hne]
    exact List.getD_append _ _ _ _ (hcube r hr)
  · -- surviving original rows are normalized once, against their own value
    intro r hr v hv
    rw [hfst]
    have hmemf : resetExp r ∈ ((rows.map resetExp) ++
        dupRows (rows.map resetExp) st.length).filter
          (fun x => x.reference_value.isSome) :=
      List.mem_filter.2 ⟨List.mem_append_left _ (List.mem_map_of_mem _ hr),
        by simp [resetExp, hv]⟩
    have hlt : (resetExp r).cube < (st ++ dupCubes st (rows.map resetExp)).length := by
      rw [hstlen]
      have := hcube r hr
      simp only [resetExp]
      omega
    have hmain := storeNorm_getD_mem rel _ _ (resetExp r) hfinnodup hmemf hlt
    simp only [resetExp] at hmain
    rw [List.getD_append _ _ _ _ (hcube r hr), hv, Option.getD_some] at hmain
    exact hmain
  · -- each duplicate is normalized from the original historical array
    intro k hk hsome
    have hk1 : k < (selRows (rows.map resetExp)).length := by
      rw [hsel1len]; exact hk
    have hdk : k < (dupRows (rows.map resetExp) st.length).length := by
      rw [dupRows_length]; exact hk1
    have hdval := dupRows_getD (rows.map resetExp) st.length k hk1
    rw [selRows_getD_reset, getD_map_resetExp] at hdval
    have hdmem : (dupRows (rows.map resetExp) st.length).getD k defaultRow ∈
        dupRows (rows.map resetExp) st.length := by
      rw [List.getD_eq_getElem _ _ hdk]
      exact List.getElem_mem _
    have hdfin : (dupRows (rows.map resetExp) st.length).getD k defaultRow ∈
        ((rows.map resetExp) ++ dupRows (rows.map resetExp) st.length).filter
          (fun x => x.reference_value.isSome) := by
      refine List.mem_filter.2 ⟨List.mem_append_right _ hdmem, ?_⟩
      rw [hdval]
      simpa [resetExp] using hsome
    have hcubeval : ((dupRows (rows.map resetExp) st.length).getD k
        defaultRow).cube = st.length + k := by
      rw [hdval]
    have hlt : ((dupRows (rows.map resetExp) st.length).getD k
        defaultRow).cube < (st ++ dupCubes st (rows.map resetExp)).length := by
      rw [hcubeval, hstlen]
      omega
    have hmain := storeNorm_getD_mem rel _ _ _ hfinnodup hdfin hlt
    rw [hcubeval] at hmain
    have hrefval : (((dupRows (rows.map resetExp) st.length).getD k
        defaultRow).reference_value) =
        ((selRows rows).getD k (0, defaultRow)).2.reference_value := by
      rw [hdval]
      rfl
    have hsrc : (st ++ dupCubes st (rows.map resetExp)).getD (st.length + k)
        emptyCube =
        st.getD ((rows.getD
          (((selRows rows).getD k (0, defaultRow)).2.index_match_run.toNat)
          defaultRow).cube) emptyCube := by
      rw [List.getD_append_right st _ emptyCube _ (Nat.le_add_right _ _)]
      have hsub : st.length + k - st.length = k := by omega
      rw [hsub, dupCubes_getD st (rows.map resetExp) k hk1, selRows_getD_reset,
        getD_map_resetExp]
      rfl
    rw [hfst, hmain, hsrc, hrefval]

end ESMValTool
namespace ESMValTool

open KCS Witness

/-- Witness for C5 at a concrete input: one matched future row (cube 0,
reference 2) and its historical row (cube 1, no reference).  After
normalization the table has two rows (future + duplicate), the original
historical cube is untouched, the duplicate (fresh store position 2) is the
normalized copy of the historical array, and the future cube is normalized
in place. -/
theorem C5_witness :
    ("run" : String) ≠ "model" ∧
    (normalize true "run" nStore nRows).2.length = 2 ∧
    (normalize true "run" nStore nRows).1.getD 1 emptyCube = ⟨[1999], [7], "K"⟩ ∧
    (normalize true "run" nStore nRows).1.getD 2 emptyCube =
      normalize_cube true ⟨[1999], [7], "K"⟩ 2 ∧
    (normalize true "run" nStore nRows).1.getD 0 emptyCube =
      normalize_cube true ⟨[2000], [5], "K"⟩ 2 := by
  have h := C5_fanout_duplication nStore nRows true "run" (by decide) (by decide)
    (by decide)
  refine ⟨by decide, ?_, ?_, ?_, ?_⟩
  · exact h.1.trans (by decide)
  · have h4 := h.2.2.2.1 ⟨"M", "historical", 1, -1, none, ""⟩ (by decide) rfl
    exact h4.trans (by decide)
  · have h6 := h.2.2.2.2.2 0 (by decide) (by decide)
    have hx : (nStore.getD
        ((nRows.getD (((selRows nRows).getD 0 (0, defaultRow)).2.index_match_run.toNat)
          defaultRow).cube) emptyCube) = (⟨[1999], [7], "K"⟩ : Cube) := by decide
    have hy : (((selRows nRows).getD 0 (0, defaultRow)).2.reference_value.getD 0)
        = (2 : ℚ) := by decide
    rw [hx, hy] at h6
    exact h6
  · have h5 := h.2.2.2.2.1 ⟨"M", "rcp45", 0, 1, some 2, ""⟩ (by decide) 2 rfl
    have hz : (nStore.getD 0 emptyCube) = (⟨[2000], [5], "K"⟩ : Cube) := by decide
    rw [hz] at h5
    exact h5

end ESMValTool
